import Mathlib

/-!
Verification of the Dayflow recording-to-timeline pipeline.

This file gives a shallow embedding, in Lean 4, of the core functions of the
Dayflow repository (`src/dayflow/...`) that the specification talks about:

* `llm_service.py` — `LLMService.parse_category` (category normalization);
* `gemini_service.py` — `GeminiService._parse_video_response` (extraction
  response parsing, base-time recovery from filenames);
* `storage.py` — `StorageManager.get_chunks_in_range` and
  `StorageManager.cleanup_old_recordings`;
* `recorder.py` — `ScreenRecorder._recording_loop` and
  `ScreenRecorder._save_chunk`;
* `daily_summary_service.py` — `DailySummaryService.generate_summary`;
* `analysis_manager.py` — `AnalysisManager.analyze_date` and the
  batch-file naming of `AnalysisManager._merge_batch`.

Modelling conventions:

* Wall-clock instants are rational numbers of minutes on an abstract timeline
  (`ℚ`), or integers of minutes where the code only compares/filters
  (`storage.py`, `analysis_manager.py`); `timedelta(days = n)` is `n * 1440`
  minutes, `timedelta(minutes = m)` is `m`.
* Calendar timestamps handled through `strftime`/`strptime` with the format
  `"%Y%m%d_%H%M%S"` are modelled by the record `DateTime6`.
* External collaborators (the ffmpeg probe, the Gemini model, the JSON
  decoder of the Python standard library, the conversion of a parsed
  `datetime` onto the abstract timeline) enter as explicit function
  parameters; everything the repository itself computes is embedded.
* Python text is modelled as `List Char` where index arithmetic matters
  (`find`/`rfind`/slicing) and as `String` elsewhere.
-/

namespace Dayflow

/-! ## Basic Python-style helpers -/

/-- Python `str.lower()` restricted to ASCII case (the only case mapping the
category table and filenames of the repository exercise); non-ASCII characters,
in particular the Chinese category labels, are left unchanged. -/
def pyLower (s : String) : String :=
  ⟨s.data.map Char.toLower⟩

/-- Strip leading and trailing whitespace from a character list. -/
def stripChars (cs : List Char) : List Char :=
  ((cs.dropWhile Char.isWhitespace).reverse.dropWhile Char.isWhitespace).reverse

/-- Python `str.strip()`. -/
def pyStrip (s : String) : String :=
  ⟨stripChars s.data⟩

/-- Index of the first occurrence of `c` (Python `str.find`, `none` for `-1`). -/
def findIdx (c : Char) : List Char → Option Nat
  | [] => none
  | x :: xs => if x = c then some 0 else (findIdx c xs).map (· + 1)

/-- Index of the last occurrence of `c` (Python `str.rfind`, `none` for `-1`). -/
def rfindIdx (c : Char) (l : List Char) : Option Nat :=
  (findIdx c l.reverse).map (fun i => l.length - 1 - i)

/-- Whether `pat` occurs as a contiguous subsequence of the text (Python `in` on `str`). -/
def containsSeq (pat : List Char) : List Char → Bool
  | [] => pat.isEmpty
  | c :: rest => listStartsWith pat (c :: rest) || containsSeq pat rest
where
  /-- Whether the first list is an initial segment of the second. -/
  listStartsWith : List Char → List Char → Bool
    | [], _ => true
    | _ :: _, [] => false
    | p :: ps, c :: cs => p = c && listStartsWith ps cs

/-- Text after the first occurrence of `c`:
Python `s.split(c, 1)[1]`, `none` when `c` is absent (where the Python
index `[1]` would raise). -/
def afterFirst (c : Char) : List Char → Option (List Char)
  | [] => none
  | x :: xs => if x = c then some xs else afterFirst c xs

/-! ## Category normalization — `llm_service.py`, `LLMService.parse_category` -/

/-- The seven canonical activity categories of the specification.  In the code
they are represented by their Chinese display names (`Category.zhName`). -/
inductive Category where
  | Work
  | Meeting
  | Break
  | Productivity
  | Learning
  | Entertainment
  | Other
deriving DecidableEq, Repr

/-- Chinese display name used by the code for each canonical category. -/
def Category.zhName : Category → String
  | .Work => "工作"
  | .Meeting => "会议"
  | .Break => "休息"
  | .Productivity => "效率"
  | .Learning => "学习"
  | .Entertainment => "娱乐"
  | .Other => "其他"

/-- The `category_map` dictionary of `LLMService.parse_category`, in source
order (Chinese block first, then the English fallback block). -/
def categoryMap : List (String × String) :=
  [("工作", "工作"), ("会议", "会议"), ("休息", "休息"), ("效率", "效率"),
   ("学习", "学习"), ("娱乐", "娱乐"),
   ("编程", "工作"), ("开发", "工作"), ("研究", "学习"), ("阅读", "学习"),
   ("视频", "娱乐"), ("游戏", "娱乐"),
   ("work", "工作"), ("meeting", "会议"), ("break", "休息"),
   ("productivity", "效率"), ("learning", "学习"), ("entertainment", "娱乐"),
   ("coding", "工作"), ("development", "工作"), ("research", "学习"),
   ("reading", "学习"), ("video", "娱乐"), ("gaming", "娱乐")]

/-- The normalized lookup key `category_str.lower().strip()`. -/
def normalizeCategoryKey (s : String) : String :=
  pyStrip (pyLower s)

/-- Embedding of `LLMService.parse_category`: dictionary lookup of the normalized label,
defaulting to `"其他"` ("Other"). -/
def parse_category (categoryStr : String) : String :=
  (categoryMap.lookup (normalizeCategoryKey categoryStr)).getD "其他"

/-! ## Calendar timestamps and the `"%Y%m%d_%H%M%S"` format -/

/-- A calendar timestamp with second precision, the data carried by
`strftime("%Y%m%d_%H%M%S")` / `strptime(_, "%Y%m%d_%H%M%S")`. -/
structure DateTime6 where
  year : Nat
  month : Nat
  day : Nat
  hour : Nat
  minute : Nat
  second : Nat
deriving DecidableEq, Repr

/-- Zero-pad a numeral to width 2. -/
def pad2 (n : Nat) : String :=
  if n < 10 then "0" ++ toString n else toString n

/-- Zero-pad a numeral to width 4. -/
def pad4 (n : Nat) : String :=
  if n < 10 then "000" ++ toString n
  else if n < 100 then "00" ++ toString n
  else if n < 1000 then "0" ++ toString n
  else toString n

/-- Embedding of `dt.strftime("%Y%m%d_%H%M%S")`. -/
def formatTimestamp (dt : DateTime6) : String :=
  pad4 dt.year ++ pad2 dt.month ++ pad2 dt.day ++ "_" ++
    pad2 dt.hour ++ pad2 dt.minute ++ pad2 dt.second

/-- Gregorian leap-year test. -/
def isLeapYear (y : Nat) : Bool :=
  (y % 4 = 0 && y % 100 ≠ 0) || y % 400 = 0

/-- Number of days in a month (with leap years). -/
def daysInMonth (y m : Nat) : Nat :=
  if m = 2 then (if isLeapYear y then 29 else 28)
  else if m = 4 ∨ m = 6 ∨ m = 9 ∨ m = 11 then 30
  else 31

/-- Numeric value of a non-empty digit string. -/
def digitsToNat (cs : List Char) : Option Nat :=
  if cs ≠ [] ∧ cs.all Char.isDigit then
    some (cs.foldl (fun a c => a * 10 + (c.toNat - 48)) 0)
  else none

/-- Embedding of `datetime.strptime(s, "%Y%m%d_%H%M%S")` on the zero-padded, fixed-width
strings produced by `strftime` with the same format: 8 digits, `'_'`,
6 digits, with calendar field validation as done by `strptime`; `none`
models the `ValueError` raised on anything else. -/
def parseTimestamp (cs : List Char) : Option DateTime6 := do
  if cs.length = 15 ∧ cs.get? 8 = some '_' then
    let y ← digitsToNat (cs.take 4)
    let m ← digitsToNat ((cs.drop 4).take 2)
    let d ← digitsToNat ((cs.drop 6).take 2)
    let hh ← digitsToNat ((cs.drop 9).take 2)
    let mm ← digitsToNat ((cs.drop 11).take 2)
    let ss ← digitsToNat ((cs.drop 13).take 2)
    if 1 ≤ m ∧ m ≤ 12 ∧ 1 ≤ d ∧ d ≤ daysInMonth y m ∧
        hh ≤ 23 ∧ mm ≤ 59 ∧ ss ≤ 61 then
      some ⟨y, m, d, hh, mm, ss⟩
    else none
  else none

/-! ## Extraction response parsing —
`gemini_service.py`, `GeminiService._parse_video_response` -/

/-- JSON values, the possible results of `json.loads`. -/
inductive Json where
  | null
  | bool (b : Bool)
  | num (q : ℚ)
  | str (s : String)
  | arr (elems : List Json)
  | obj (fields : List (String × Json))

/-- Python `dict.get(key, default)` on a parsed JSON object. -/
def pyGet (fields : List (String × Json)) (key : String) (dflt : Json) : Json :=
  (fields.lookup key).getD dflt

/-- Python `float(x)` applied to a JSON value: numbers convert, booleans give
`1`/`0`, decimal numeric strings (possibly signed, possibly with a fractional
part, surrounded by optional whitespace) convert, everything else raises —
modelled as `none`. -/
def pyFloat : Json → Option ℚ
  | .num q => some q
  | .bool b => some (if b then 1 else 0)
  | .str s => parseDecimal (stripChars s.data)
  | _ => none
where
  /-- Plain decimal literal: optional sign, digits, optional `.` digits. -/
  parseDecimal (cs : List Char) : Option ℚ :=
    let signed : List Char × ℚ :=
      match cs with
      | '-' :: rest => (rest, (-1 : ℚ))
      | '+' :: rest => (rest, 1)
      | rest => (rest, 1)
    let intPart := signed.1.takeWhile Char.isDigit
    match signed.1.dropWhile Char.isDigit, digitsToNat intPart with
    | [], some n => some (signed.2 * n)
    | '.' :: fracPart, some n =>
      match digitsToNat fracPart with
      | some f => some (signed.2 * (n + (f : ℚ) / ((10 : ℚ) ^ fracPart.length)))
      | none => none
    | _, _ => none

/-- The `str` payload of a JSON value; anything else raises in
`parse_category` (which calls `.lower()` on it) — modelled as `none`. -/
def pyAsString : Json → Option String
  | .str s => some s
  | _ => none

/-- One parsed activity segment (`llm_service.py`, class `ActivitySegment`).
Times are rationals of minutes on the abstract timeline; `title` and
`summary` are stored as the raw JSON values the code puts into the
constructor without conversion. -/
structure ActivitySegment where
  start_time : ℚ
  end_time : ℚ
  title : Json
  summary : Json
  category : String

/-- The body of the per-element `try` block of `_parse_video_response`:
build one `ActivitySegment` from a JSON array element; any failure
(element not an object, non-numeric minute field, non-string category)
is the caught exception, modelled as `none`. -/
def parseVideoElement (durationSec : ℚ) (baseTime : ℚ) : Json → Option ActivitySegment
  | .obj fields => do
    let startMin ← pyFloat (pyGet fields "start_minutes" (.num 0))
    let endMin ← pyFloat (pyGet fields "end_minutes" (.num (durationSec / 60)))
    let catStr ← pyAsString (pyGet fields "category" (.str "Other"))
    some { start_time := baseTime + startMin
           end_time := baseTime + endMin
           title := pyGet fields "title" (.str "Untitled Activity")
           summary := pyGet fields "summary" (.str "")
           category := parse_category catStr }
  | _ => none

/-- The slice `response_text[json_start:json_end]` guarded by
`json_start == -1 or json_end == 0`: the substring from the first `'['`
to the last `']'` (inclusive), `none` when either delimiter is absent. -/
def extractJsonSubstr (text : List Char) : Option (List Char) :=
  match findIdx '[' text, rfindIdx ']' text with
  | some i, some j => some ((text.drop i).take (j + 1 - i))
  | _, _ => none

/-- Base-time recovery of `_parse_video_response`: only filenames (stems)
containing `"chunk_"` are split at their first `'_'` and the remainder fed
to `strptime("%Y%m%d_%H%M%S")`; any failure leaves the
`datetime.now()` fallback in place, modelled as `none`. -/
def parseBaseTime (stem : List Char) : Option DateTime6 :=
  if containsSeq "chunk_".data stem then
    match afterFirst '_' stem with
    | some rest => parseTimestamp rest
    | none => none
  else none

/-- The base timestamp `_parse_video_response` adds the minute offsets to:
the filename-recovered time mapped onto the abstract timeline by the
ambient `datetime` semantics `dtVal`, or `now` as fallback. -/
def baseTimeOf (dtVal : DateTime6 → ℚ) (now : ℚ) (stem : List Char) : ℚ :=
  match parseBaseTime stem with
  | some dt => dtVal dt
  | none => now

/-- Embedding of `video_info.get("duration", 900)`: the probed duration in seconds, with
the 900-second (15-minute) default when probing yielded no duration. -/
def videoDurationSec (probedDuration : Option ℚ) : ℚ :=
  probedDuration.getD 900

/-- Embedding of `GeminiService._parse_video_response`. Parameters standing for external
collaborators: `jsonParse` is `json.loads` restricted to arrays (the
extracted substring always begins with `'['`, so a successful `loads` is a
list), with `none` for `JSONDecodeError`; `probedDuration` is the
`"duration"` entry of `VideoProcessor.get_video_info` (absent on probe
failure); `now` is `datetime.now()`; `dtVal` places `strptime` results on
the abstract timeline; `stem` is `video_path.stem`. -/
def parse_video_response (jsonParse : List Char → Option (List Json))
    (probedDuration : Option ℚ) (now : ℚ) (dtVal : DateTime6 → ℚ)
    (stem : List Char) (text : List Char) : List ActivitySegment :=
  match extractJsonSubstr text with
  | none => []
  | some jsonStr =>
    match jsonParse jsonStr with
    | none => []
    | some elems =>
      let duration := videoDurationSec probedDuration
      let base := baseTimeOf dtVal now stem
      elems.filterMap (parseVideoElement duration base)

/-- Stem of the merged batch file created by `AnalysisManager._merge_batch`:
`f"batch_{start_time.strftime('%Y%m%d_%H%M%S')}.mp4"`, without the
extension. -/
def mergeBatchStem (windowStart : DateTime6) : String :=
  "batch_" ++ formatTimestamp windowStart

/-! ## Storage — `storage.py`, `StorageManager` -/

/-- A `RecordingChunk` row (`models/recording_chunk.py`): times are integer
minutes on the abstract timeline. -/
structure RecordingChunk where
  id : Nat
  start_time : Int
  end_time : Int
  file_path : String
  display_id : Nat
  file_size : Nat
deriving DecidableEq, Repr

/-- Length of `timedelta(days = n)` in minutes, per day. -/
def minutesPerDay : Int := 1440

/-- Embedding of `StorageManager.get_chunks_in_range`: rows with
`start_time >= start ∧ end_time <= end`, optionally restricted to one
display, ordered by ascending `start_time`. -/
def get_chunks_in_range (db : List RecordingChunk) (startTime endTime : Int)
    (displayId : Option Nat) : List RecordingChunk :=
  let ranged := db.filter (fun c =>
    decide (startTime ≤ c.start_time) && decide (c.end_time ≤ endTime))
  let filtered :=
    match displayId with
    | some d => ranged.filter (fun c : RecordingChunk => decide (c.display_id = d))
    | none => ranged
  filtered.mergeSort (fun a b => decide (a.start_time ≤ b.start_time))

/-- The cleanup counters accumulated by `cleanup_old_recordings`
(`deleted_files`, `deleted_records`, `freed_bytes`; the returned dict
reports `freed_mb = freed_bytes / (1024 * 1024)` computed from the last). -/
structure CleanupStats where
  deleted_files : Nat
  deleted_records : Nat
  freed_bytes : Nat
deriving DecidableEq, Repr

/-- The filesystem visible to the storage manager: size of the file at a file
path, or `none` when no such file exists. -/
def FileSys : Type := String → Option Nat

/-- Embedding of `Path.unlink`. -/
def FileSys.delete (fs : FileSys) (p : String) : FileSys :=
  fun q => if q = p then none else fs q

/-- One iteration of the chunk-deletion loop of `cleanup_old_recordings`:
delete the file if it exists (accumulating its size), then delete the
database record. -/
def cleanupStep (acc : FileSys × CleanupStats) (c : RecordingChunk) :
    FileSys × CleanupStats :=
  match acc.1 c.file_path with
  | some size =>
    (acc.1.delete c.file_path,
     ⟨acc.2.deleted_files + 1, acc.2.deleted_records + 1,
      acc.2.freed_bytes + size⟩)
  | none =>
    (acc.1, ⟨acc.2.deleted_files, acc.2.deleted_records + 1, acc.2.freed_bytes⟩)

/-- Embedding of `StorageManager.cleanup_old_recordings`: select the rows with
`start_time < now - retention_days`, delete file (if present) and record for
each, and return the remaining index, the resulting filesystem, and the
accumulated statistics. -/
def cleanup_old_recordings (now : Int) (retentionDays : Int)
    (db : List RecordingChunk) (fs : FileSys) :
    List RecordingChunk × FileSys × CleanupStats :=
  let cutoff := now - retentionDays * minutesPerDay
  let oldChunks := db.filter (fun c => decide (c.start_time < cutoff))
  let res := oldChunks.foldl cleanupStep (fs, ⟨0, 0, 0⟩)
  (db.filter (fun c => !decide (c.start_time < cutoff)), res.1, res.2)

/-! ## Capture loop — `recorder.py`, `ScreenRecorder` -/

/-- State of `ScreenRecorder._recording_loop` between iterations: the
wall clock (integer seconds), the in-memory frame buffer (frame count),
the start instant of the running chunk, the completed chunks as
`(start_time, end_time)` pairs, and two observers — total frames captured
and total seconds spent sleeping while paused. -/
structure RecState where
  time : Nat
  buffer : Nat
  chunkStart : Nat
  chunks : List (Nat × Nat)
  totalFrames : Nat
  pausedTime : Nat
deriving DecidableEq, Repr

/-- Initial state of the loop: `frames_buffer = []`,
`chunk_start_time = datetime.now()` at clock 0. -/
def recInit : RecState :=
  ⟨0, 0, 0, [], 0, 0⟩

/-- One iteration of the `while self.is_recording` loop: while paused the
loop sleeps one second and captures nothing; otherwise it captures a frame
(when the grab succeeds), flushes the buffer as a chunk once the wall-clock
elapsed since `chunk_start_time` reaches `chunk_duration`, and sleeps
`frame_interval` seconds to hold the target rate.  Frame capture itself is
treated as instantaneous. -/
def recStep (chunkDuration frameInterval : Nat) (paused captureOk : Bool)
    (s : RecState) : RecState :=
  if paused then
    { s with time := s.time + 1, pausedTime := s.pausedTime + 1 }
  else
    let s1 :=
      if captureOk then
        let captured := { s with buffer := s.buffer + 1,
                                 totalFrames := s.totalFrames + 1 }
        if chunkDuration ≤ captured.time - captured.chunkStart then
          { captured with
              chunks := captured.chunks ++ [(captured.chunkStart, captured.time)],
              buffer := 0,
              chunkStart := captured.time }
        else captured
      else s
    { s1 with time := s1.time + frameInterval }

/-- Run the recording loop for `fuel` iterations; `pausedAt i` / `captureOk i`
give the `is_paused` flag and grab success seen by iteration `i` (counting
from `i0`). -/
def recRun (chunkDuration frameInterval : Nat) (pausedAt captureOk : Nat → Bool) :
    Nat → Nat → RecState → RecState
  | _, 0, s => s
  | i0, n + 1, s =>
    recRun chunkDuration frameInterval pausedAt captureOk (i0 + 1) n
      (recStep chunkDuration frameInterval (pausedAt i0) (captureOk i0) s)

/-- Embedding of `ScreenRecorder._recording_loop`: iterate until `is_recording` is cleared
(after `n` iterations), then flush any non-empty remaining buffer as a final
chunk. -/
def recording_loop (chunkDuration frameInterval : Nat)
    (pausedAt captureOk : Nat → Bool) (n : Nat) : RecState :=
  let s := recRun chunkDuration frameInterval pausedAt captureOk 0 n recInit
  if s.buffer ≠ 0 then
    { s with chunks := s.chunks ++ [(s.chunkStart, s.time)], buffer := 0 }
  else s

/-! ## Chunk saving — `recorder.py`, `ScreenRecorder._save_chunk` -/

/-- The derived chunk filename, Python f-string `chunk_` + `start_time.strftime('%Y%m%d_%H%M%S')` + `.mp4`. -/
def chunkFilename (startTime : DateTime6) : String :=
  "chunk_" ++ formatTimestamp startTime ++ ".mp4"

/-- Outcome of `_save_chunk`: early return on an empty buffer, early return
when the video writer fails to open, or a completed save of the file at the
derived path. -/
inductive SaveResult where
  | noFrames
  | writerFailed
  | saved (path : String)
deriving DecidableEq, Repr

/-- Embedding of `ScreenRecorder._save_chunk` over a set of already-existing file paths:
derive the filename from the chunk start timestamp, open a video writer at
that path (which creates or truncates the file — the code never checks
whether the path is already taken) and write the frames.  `writerOk` stands
for `writer.isOpened()` (disk/codec availability). -/
def save_chunk (writerOk : Bool) (existing : String → Bool) (frames : Nat)
    (startTime : DateTime6) : (String → Bool) × SaveResult :=
  if frames = 0 then (existing, .noFrames)
  else
    let path := chunkFilename startTime
    if writerOk then
      ((fun q => q = path || existing q), .saved path)
    else (existing, .writerFailed)

/-! ## Daily summaries — `daily_summary_service.py`, `DailySummaryService` -/

/-- A `DailySummary` row (`models/daily_summary.py`), restricted to the
fields `generate_summary` reads or writes; `date` is an integer calendar-day
index (one row per date). -/
structure DailySummaryRow where
  date : Int
  ai_summary : Option String
  user_notes : Option String
  total_minutes : Int
  productive_minutes : Int
  activity_count : Nat
  top_category : Option String
deriving DecidableEq, Repr

/-- A `TimelineActivity` row as consumed by the summary engine:
`start_time` in integer minutes, `duration_minutes`, and the resolved
category name (if any). -/
structure TimelineActivityRow where
  start_time : Int
  duration_minutes : Int
  category : Option String
deriving DecidableEq, Repr

/-- Python truthiness of the optional `user_notes` argument
(`if user_notes:`): `None` and the empty string are falsy. -/
def pyTruthy : Option String → Bool
  | none => false
  | some s => s ≠ ""

/-- Update the first row matched by `p` in place (the SQLAlchemy
`query(...).first()` row mutated then committed), leaving the rest alone. -/
def updateFirst (p : α → Bool) (f : α → α) : List α → List α
  | [] => []
  | x :: xs => if p x then f x :: xs else x :: updateFirst p f xs

/-- Embedding of `Theme.is_productive_category` (`ui/theme.py`): the categories counted
as productive time. -/
def is_productive_category (name : String) : Bool :=
  name = "工作" || name = "效率" || name = "学习" ||
    name = "Work" || name = "Productivity" || name = "Learning"

/-- Add `m` minutes to the entry of `c`, preserving first-occurrence order
(the insertion-ordered Python dict `category_time`). -/
def addCategoryTime (c : String) (m : Int) :
    List (String × Int) → List (String × Int)
  | [] => [(c, m)]
  | (k, v) :: t => if k = c then (k, v + m) :: t else (k, v) :: addCategoryTime c m t

/-- The insertion-ordered per-category minute totals of
`_calculate_statistics`. -/
def categoryBreakdown (activities : List TimelineActivityRow) :
    List (String × Int) :=
  activities.foldl
    (fun acc a =>
      match a.category with
      | some c => addCategoryTime c a.duration_minutes acc
      | none => acc)
    []

/-- Python `max(category_time.items(), key=...)[0]`: key of the entry with
the maximal value, the earliest such entry winning ties (`max` keeps the
current best unless a strictly larger value follows); `none` on an empty
dict. -/
def topCategoryOf : List (String × Int) → Option String
  | [] => none
  | x :: t => some (t.foldl (fun best y => if y.2 > best.2 then y else best) x).1

/-- The fields of `_calculate_statistics` that `generate_summary` persists
(the derived hour/percentage display values are not stored). -/
structure SummaryStats where
  total_minutes : Int
  productive_minutes : Int
  activity_count : Nat
  top_category : Option String
deriving DecidableEq, Repr

/-- Embedding of `DailySummaryService._calculate_statistics`. -/
def calculate_statistics (activities : List TimelineActivityRow) : SummaryStats :=
  { total_minutes := (activities.map (·.duration_minutes)).sum
    productive_minutes :=
      ((activities.filter (fun a =>
          match a.category with
          | some c => is_productive_category c
          | none => false)).map (·.duration_minutes)).sum
    activity_count := activities.length
    top_category := topCategoryOf (categoryBreakdown activities) }

/-- The placeholder `ai_summary` written for a date with no activities. -/
def noActivityPlaceholder : String := "今天没有记录到活动。"

/-- Embedding of `DailySummaryService.generate_summary` acting on the `daily_summaries`
table (a row list) for the day-index `day`.  `allActivities` is the
`timeline_activities` table; `aiText` stands for the response text of
`_generate_ai_summary` (an external model call).  Returns the table after
the call together with the returned row. -/
def generate_summary (aiText : String) (rows : List DailySummaryRow)
    (allActivities : List TimelineActivityRow) (day : Int)
    (userNotes : Option String) (forceRegenerate : Bool) :
    List DailySummaryRow × Option DailySummaryRow :=
  let dayStart := day * minutesPerDay
  let dayEnd := dayStart + minutesPerDay
  let existing := rows.find? (fun r => r.date = day)
  match existing with
  | some ex =>
    if !forceRegenerate then
      -- summary already exists and regeneration is not forced:
      -- update user notes if provided, leave everything else alone
      if pyTruthy userNotes then
        (updateFirst (fun r => r.date = day)
           (fun r => { r with user_notes := userNotes }) rows,
         some { ex with user_notes := userNotes })
      else (rows, some ex)
    else
      generateFresh aiText rows allActivities day dayStart dayEnd userNotes
        (some ex)
  | none =>
    generateFresh aiText rows allActivities day dayStart dayEnd userNotes none
where
  /-- The fall-through path: query the activities of the date and create or
  update the row. -/
  generateFresh (aiText : String) (rows : List DailySummaryRow)
      (allActivities : List TimelineActivityRow) (day dayStart dayEnd : Int)
      (userNotes : Option String) (existing : Option DailySummaryRow) :
      List DailySummaryRow × Option DailySummaryRow :=
    let activities := (allActivities.filter (fun a =>
        decide (dayStart ≤ a.start_time) && decide (a.start_time < dayEnd)))
      |>.mergeSort (fun a b => decide (a.start_time ≤ b.start_time))
    if activities = [] then
      match existing with
      | some ex =>
        let ex' := { ex with user_notes := userNotes,
                             ai_summary := some noActivityPlaceholder,
                             activity_count := 0, total_minutes := 0,
                             productive_minutes := 0 }
        (updateFirst (fun r => r.date = day) (fun _ => ex') rows, some ex')
      | none =>
        let row : DailySummaryRow :=
          { date := day, user_notes := userNotes,
            ai_summary := some noActivityPlaceholder,
            activity_count := 0, total_minutes := 0, productive_minutes := 0,
            top_category := none }
        (rows ++ [row], some row)
    else
      let stats := calculate_statistics activities
      match existing with
      | some ex =>
        let ex' := { ex with ai_summary := some aiText,
                             user_notes := userNotes,
                             total_minutes := stats.total_minutes,
                             productive_minutes := stats.productive_minutes,
                             activity_count := stats.activity_count,
                             top_category := stats.top_category }
        (updateFirst (fun r => r.date = day) (fun _ => ex') rows, some ex')
      | none =>
        let row : DailySummaryRow :=
          { date := day, ai_summary := some aiText, user_notes := userNotes,
            total_minutes := stats.total_minutes,
            productive_minutes := stats.productive_minutes,
            activity_count := stats.activity_count,
            top_category := stats.top_category }
        (rows ++ [row], some row)

/-! ## Manual backfill — `analysis_manager.py`, `AnalysisManager.analyze_date` -/

/-- The `while current_time < end_time` loop of `analyze_date`: walk the day
in consecutive `[current, current + interval)` windows over chunk
`start_time`; for each non-empty window, merge its chunks (`mergeOk w`
standing for `_merge_batch` returning a path for the window starting at `w`)
and, on success, run extraction (`extract w` standing for the activity list
`llm_service.analyze_video` returns for that window) and process every
returned activity, counting it.  Returns the number of activities created
and the list of merged batches `(window_start, window_chunks)`. -/
def analyzeDateLoop (interval : Int) (hI : 0 < interval)
    (chunks : List RecordingChunk) (mergeOk : Int → Bool)
    (extract : Int → List ActivitySegment) (current endTime : Int) :
    Nat × List (Int × List RecordingChunk) :=
  if h : current < endTime then
    let batchEnd := current + interval
    let batchChunks := chunks.filter (fun c =>
      decide (current ≤ c.start_time) && decide (c.start_time < batchEnd))
    let rest := analyzeDateLoop interval hI chunks mergeOk extract batchEnd endTime
    if batchChunks ≠ [] ∧ mergeOk current then
      ((extract current).length + rest.1, (current, batchChunks) :: rest.2)
    else rest
  else (0, [])
termination_by (endTime - current).toNat
decreasing_by
  omega

/-- Embedding of `AnalysisManager.analyze_date` for the day starting at minute
`dayStart`: fetch the chunks of the date through the storage manager, return `0`
when there are none, otherwise run the window loop and return the number of
activities created. -/
def analyze_date (interval : Int) (hI : 0 < interval)
    (db : List RecordingChunk) (mergeOk : Int → Bool)
    (extract : Int → List ActivitySegment) (dayStart : Int) : Nat :=
  let endTime := dayStart + minutesPerDay
  let chunks := get_chunks_in_range db dayStart endTime none
  if chunks = [] then 0
  else (analyzeDateLoop interval hI chunks mergeOk extract dayStart endTime).1

/-- The merged batches produced by one `analyze_date` run. -/
def analyzeDateBatches (interval : Int) (hI : 0 < interval)
    (db : List RecordingChunk) (mergeOk : Int → Bool)
    (extract : Int → List ActivitySegment) (dayStart : Int) :
    List (Int × List RecordingChunk) :=
  let endTime := dayStart + minutesPerDay
  let chunks := get_chunks_in_range db dayStart endTime none
  if chunks = [] then []
  else (analyzeDateLoop interval hI chunks mergeOk extract dayStart endTime).2

/-! ## Theorems -/

/-- A successful association-list lookup returns one of the stored values. -/
theorem lookup_mem_values {α β : Type} [BEq α] (k : α) (l : List (α × β))
    (v : β) (h : l.lookup k = some v) : v ∈ l.map Prod.snd := by
  induction l with
  | nil => simp [List.lookup] at h
  | cons p t ih =>
    rw [List.lookup] at h
    by_cases hk : k == p.1
    · simp [hk] at h
      simp [← h]
    · simp [hk] at h
      simp [ih h]

/-- The Chinese display names of the seven canonical categories. -/
def canonicalNames : List String :=
  [Category.Work.zhName, Category.Meeting.zhName, Category.Break.zhName,
   Category.Productivity.zhName, Category.Learning.zhName,
   Category.Entertainment.zhName, Category.Other.zhName]

theorem mem_canonicalNames_exists (v : String) (h : v ∈ canonicalNames) :
    ∃ c : Category, v = c.zhName := by
  simp only [canonicalNames, List.mem_cons, List.not_mem_nil, or_false] at h
  rcases h with rfl | rfl | rfl | rfl | rfl | rfl | rfl
  · exact ⟨.Work, rfl⟩
  · exact ⟨.Meeting, rfl⟩
  · exact ⟨.Break, rfl⟩
  · exact ⟨.Productivity, rfl⟩
  · exact ⟨.Learning, rfl⟩
  · exact ⟨.Entertainment, rfl⟩
  · exact ⟨.Other, rfl⟩

/-- Every value of the synonym table is canonical and a fixed point of
`parse_category`. -/
theorem categoryMap_values_canonical :
    ∀ v ∈ categoryMap.map Prod.snd,
      v ∈ canonicalNames ∧ parse_category v = v := by
  decide

/-- C6: category normalization is a total and idempotent function: every
input string normalizes to (the display name of) one of the seven canonical
categories Work, Meeting, Break, Productivity, Learning, Entertainment,
Other; every synonym-table value is itself canonical; an input whose
normalized key is not in the table maps to Other; and normalizing an
already-normalized value leaves it unchanged. -/
theorem c6_parse_category_total_idempotent (s : String) :
    (∃ c : Category, parse_category s = c.zhName) ∧
    parse_category (parse_category s) = parse_category s ∧
    (categoryMap.lookup (normalizeCategoryKey s) = none →
      parse_category s = Category.Other.zhName) := by
  have hother : parse_category "其他" = "其他" := by decide
  rcases hlk : categoryMap.lookup (normalizeCategoryKey s) with _ | v
  · have hs : parse_category s = "其他" := by
      simp [parse_category, hlk]
    refine ⟨⟨.Other, hs⟩, ?_, fun _ => hs⟩
    rw [hs, hother]
  · have hs : parse_category s = v := by
      simp [parse_category, hlk]
    have hv := categoryMap_values_canonical v (lookup_mem_values _ _ _ hlk)
    refine ⟨?_, ?_, ?_⟩
    · rcases mem_canonicalNames_exists v hv.1 with ⟨c, rfl⟩
      exact ⟨c, hs⟩
    · rw [hs, hv.2]
    · intro hnone
      simp [hlk] at hnone

/-- C4: `get_chunks_in_range` returns exactly the stored chunks with
`a ≤ start_time` and `end_time ≤ b` (restricted to the display when the
optional filter is given), sorted in ascending `start_time` order. -/
theorem c4_chunks_in_range_exact (db : List RecordingChunk) (a b : Int)
    (disp : Option Nat) :
    (∀ c : RecordingChunk,
      c ∈ get_chunks_in_range db a b disp ↔
        c ∈ db ∧ a ≤ c.start_time ∧ c.end_time ≤ b ∧
          (∀ d, disp = some d → c.display_id = d)) ∧
    List.Sorted (fun c c' : RecordingChunk => c.start_time ≤ c'.start_time)
      (get_chunks_in_range db a b disp) := by
  constructor
  · intro c
    cases disp with
    | none =>
      simp [get_chunks_in_range, List.mem_filter, and_assoc]
    | some d =>
      simp [get_chunks_in_range, List.mem_filter, and_assoc]
      tauto
  · have hs := @List.sorted_mergeSort RecordingChunk
      (fun a b : RecordingChunk => decide (a.start_time ≤ b.start_time))
      (fun x y z hxy hyz => by
        simp only [decide_eq_true_eq] at *
        omega)
      (fun x y => by
        simp only [Bool.or_eq_true, decide_eq_true_eq]
        omega)
    cases disp with
    | none =>
      exact (hs _).imp (fun h => by simpa using h)
    | some d =>
      exact (hs _).imp (fun h => by simpa using h)

/-- Pointwise effect of the cleanup fold on the filesystem: a path ends up
missing exactly when it was already missing or some processed chunk
references it. -/
theorem cleanup_fold_fs (l : List RecordingChunk) :
    ∀ (fs : FileSys) (st : CleanupStats) (p : String),
      (l.foldl cleanupStep (fs, st)).1 p =
        if ∃ c ∈ l, c.file_path = p then none else fs p := by
  induction l with
  | nil =>
    intro fs st p
    simp
  | cons c t ih =>
    intro fs st p
    have hstep : ∀ q, (cleanupStep (fs, st) c).1 q =
        if q = c.file_path then none else fs q := by
      intro q
      rcases hfs : fs c.file_path with _ | size
      · by_cases hq : q = c.file_path
        · simp [cleanupStep, hfs, hq]
        · simp [cleanupStep, hfs, hq]
      · by_cases hq : q = c.file_path
        · simp [cleanupStep, hfs, FileSys.delete, hq]
        · simp [cleanupStep, hfs, FileSys.delete, hq]
    rcases hpair : cleanupStep (fs, st) c with ⟨fs1, st1⟩
    have hfs1 : ∀ q, fs1 q = if q = c.file_path then none else fs q := by
      intro q
      have hq := hstep q
      rw [hpair] at hq
      exact hq
    rw [List.foldl_cons, hpair, ih]
    by_cases hpt : ∃ c1 ∈ t, c1.file_path = p
    · rcases hpt with ⟨c1, hc1, hcp1⟩
      rw [if_pos ⟨c1, hc1, hcp1⟩, if_pos ⟨c1, List.mem_cons_of_mem _ hc1, hcp1⟩]
    · rw [if_neg hpt, hfs1 p]
      by_cases hpc : p = c.file_path
      · rw [if_pos hpc, if_pos ⟨c, List.mem_cons_self _ _, hpc.symm⟩]
      · rw [if_neg hpc, if_neg ?_]
        intro h
        rcases h with ⟨c1, hm, he⟩
        rcases List.mem_cons.mp hm with rfl | hm1
        · exact hpc he.symm
        · exact hpt ⟨c1, hm1, he⟩

/-- Statistic counters accumulated by the cleanup fold, for chunk lists with
pairwise-distinct file paths. -/
theorem cleanup_fold_stats (l : List RecordingChunk) :
    ∀ (fs : FileSys) (st : CleanupStats),
      (l.map (·.file_path)).Nodup →
      (l.foldl cleanupStep (fs, st)).2 =
        ⟨st.deleted_files + (l.filter (fun c => (fs c.file_path).isSome)).length,
         st.deleted_records + l.length,
         st.freed_bytes + (l.map (fun c => (fs c.file_path).getD 0)).sum⟩ := by
  induction l with
  | nil =>
    intro fs st _
    simp
  | cons c t ih =>
    intro fs st hnd
    rw [List.map_cons, List.nodup_cons] at hnd
    rw [List.foldl_cons]
    rcases hfs : fs c.file_path with _ | size
    · have hpair : cleanupStep (fs, st) c =
          (fs, ⟨st.deleted_files, st.deleted_records + 1, st.freed_bytes⟩) := by
        simp [cleanupStep, hfs]
      rw [hpair, ih _ _ hnd.2]
      simp only [CleanupStats.mk.injEq, List.filter_cons, List.map_cons,
        List.sum_cons, List.length_cons, hfs, Option.isSome_none,
        Bool.false_eq_true, if_false, Option.getD_none]
      refine ⟨trivial, by omega, by omega⟩
    · have hpair : cleanupStep (fs, st) c =
          (fs.delete c.file_path,
           ⟨st.deleted_files + 1, st.deleted_records + 1,
            st.freed_bytes + size⟩) := by
        simp [cleanupStep, hfs]
      rw [hpair, ih _ _ hnd.2]
      have hcongr : ∀ c1 ∈ t,
          (fs.delete c.file_path) c1.file_path = fs c1.file_path := by
        intro c1 hc1
        have hne : c1.file_path ≠ c.file_path := by
          intro h
          exact hnd.1 (h ▸ List.mem_map_of_mem _ hc1)
        simp [FileSys.delete, hne]
      have hfilter :
          t.filter (fun c1 => ((fs.delete c.file_path) c1.file_path).isSome) =
            t.filter (fun c1 => (fs c1.file_path).isSome) := by
        apply List.filter_congr
        intro c1 hc1
        rw [hcongr c1 hc1]
      have hmap :
          t.map (fun c1 => ((fs.delete c.file_path) c1.file_path).getD 0) =
            t.map (fun c1 => (fs c1.file_path).getD 0) := by
        apply List.map_congr_left
        intro c1 hc1
        rw [hcongr c1 hc1]
      rw [hfilter, hmap]
      simp only [CleanupStats.mk.injEq, List.filter_cons, List.map_cons,
        List.sum_cons, List.length_cons, hfs, Option.isSome_some, if_true,
        Option.getD_some]
      refine ⟨by omega, by omega, by omega⟩

/-- C3: `cleanup_old_recordings` deletes exactly the chunk records with
`start_time` strictly before `now - retention_days`, removes exactly the
files those records reference (a missing file only skips the file deletion),
leaves every other chunk record and file untouched, and its statistics count
the deleted files, the deleted records, and the bytes freed (the returned
dict reports the latter as `freed_mb = freed_bytes / 2^20`). -/
theorem c3_cleanup_exact (now retentionDays : Int) (db : List RecordingChunk)
    (fs : FileSys)
    (hnd : ((db.filter (fun c =>
      decide (c.start_time < now - retentionDays * minutesPerDay))).map
        (·.file_path)).Nodup) :
    (∀ c ∈ db, c.start_time < now - retentionDays * minutesPerDay →
      c ∉ (cleanup_old_recordings now retentionDays db fs).1) ∧
    (∀ c ∈ db, now - retentionDays * minutesPerDay ≤ c.start_time →
      c ∈ (cleanup_old_recordings now retentionDays db fs).1) ∧
    (∀ p, (cleanup_old_recordings now retentionDays db fs).2.1 p = none ↔
      (fs p = none ∨ ∃ c ∈ db,
        c.start_time < now - retentionDays * minutesPerDay ∧
          c.file_path = p)) ∧
    (∀ p, (¬ ∃ c ∈ db, c.start_time < now - retentionDays * minutesPerDay ∧
        c.file_path = p) →
      (cleanup_old_recordings now retentionDays db fs).2.1 p = fs p) ∧
    (cleanup_old_recordings now retentionDays db fs).2.2.deleted_records =
      (db.filter (fun c =>
        decide (c.start_time < now - retentionDays * minutesPerDay))).length ∧
    (cleanup_old_recordings now retentionDays db fs).2.2.deleted_files =
      ((db.filter (fun c =>
        decide (c.start_time < now - retentionDays * minutesPerDay))).filter
          (fun c => (fs c.file_path).isSome)).length ∧
    (cleanup_old_recordings now retentionDays db fs).2.2.freed_bytes =
      ((db.filter (fun c =>
        decide (c.start_time < now - retentionDays * minutesPerDay))).map
          (fun c => (fs c.file_path).getD 0)).sum := by
  have hstats := cleanup_fold_stats
    (db.filter (fun c =>
      decide (c.start_time < now - retentionDays * minutesPerDay)))
    fs ⟨0, 0, 0⟩ hnd
  have hsnd : (cleanup_old_recordings now retentionDays db fs).2.2 =
      ((db.filter (fun c =>
        decide (c.start_time < now - retentionDays * minutesPerDay))).foldl
          cleanupStep (fs, ⟨0, 0, 0⟩)).2 := rfl
  have hfst : (cleanup_old_recordings now retentionDays db fs).2.1 =
      ((db.filter (fun c =>
        decide (c.start_time < now - retentionDays * minutesPerDay))).foldl
          cleanupStep (fs, ⟨0, 0, 0⟩)).1 := rfl
  refine ⟨?_, ?_, ?_, ?_, ?_, ?_, ?_⟩
  · intro c hc hlt hmem
    rw [show (cleanup_old_recordings now retentionDays db fs).1 =
      db.filter (fun c =>
        !decide (c.start_time < now - retentionDays * minutesPerDay)) from rfl,
      List.mem_filter] at hmem
    have hge := hmem.2
    simp at hge
    omega
  · intro c hc hge
    rw [show (cleanup_old_recordings now retentionDays db fs).1 =
      db.filter (fun c =>
        !decide (c.start_time < now - retentionDays * minutesPerDay)) from rfl,
      List.mem_filter]
    refine ⟨hc, ?_⟩
    simp
    omega
  · intro p
    rw [hfst, cleanup_fold_fs]
    by_cases hp : ∃ c ∈ db.filter (fun c =>
        decide (c.start_time < now - retentionDays * minutesPerDay)),
        c.file_path = p
    · rw [if_pos hp]
      constructor
      · intro _
        rcases hp with ⟨c, hc, hcp⟩
        rw [List.mem_filter] at hc
        exact Or.inr ⟨c, hc.1, by simpa using hc.2, hcp⟩
      · intro _
        rfl
    · rw [if_neg hp]
      constructor
      · exact Or.inl
      · intro h
        rcases h with h | ⟨c, hc, hlt, hcp⟩
        · exact h
        · exact absurd ⟨c, List.mem_filter.mpr ⟨hc, by simpa using hlt⟩, hcp⟩ hp
  · intro p hp
    rw [hfst, cleanup_fold_fs]
    have hnotin : ¬ ∃ c ∈ db.filter (fun c =>
        decide (c.start_time < now - retentionDays * minutesPerDay)),
        c.file_path = p := by
      intro hcon
      rcases hcon with ⟨c, hc, hcp⟩
      rw [List.mem_filter] at hc
      exact hp ⟨c, hc.1, by simpa using hc.2, hcp⟩
    rw [if_neg hnotin]
  · rw [hsnd, hstats]
    simp
  · rw [hsnd, hstats]
    simp
  · rw [hsnd, hstats]
    simp

/-- Witness for C3 at a concrete store: chunks at minute 0 (old) and minute
12960 = day 9 (recent), `now` = minute 14400 = day 10, retention 3 days. -/
theorem c3_cleanup_exact_witness :
    ((([⟨1, 0, 100, "a", 1, 5⟩, ⟨2, 12960, 12975, "b", 1, 7⟩] :
        List RecordingChunk).filter (fun c =>
          decide (c.start_time < 14400 - 3 * minutesPerDay))).map
        (·.file_path)).Nodup ∧
    (cleanup_old_recordings 14400 3
      [⟨1, 0, 100, "a", 1, 5⟩, ⟨2, 12960, 12975, "b", 1, 7⟩]
      (fun p => if p = "a" then some 5 else if p = "b" then some 7 else none)
      ).2.2.deleted_records =
      (([⟨1, 0, 100, "a", 1, 5⟩, ⟨2, 12960, 12975, "b", 1, 7⟩] :
        List RecordingChunk).filter (fun c =>
          decide (c.start_time < 14400 - 3 * minutesPerDay))).length :=
  ⟨by decide,
   (c3_cleanup_exact 14400 3
      [⟨1, 0, 100, "a", 1, 5⟩, ⟨2, 12960, 12975, "b", 1, 7⟩]
      (fun p => if p = "a" then some 5 else if p = "b" then some 7 else none)
      (by decide)).2.2.2.2.1⟩

/-- A summary row with its `user_notes` column blanked; two tables equal
under this map agree on every column except `user_notes` (in particular on
`ai_summary` and all statistics fields) and have the same rows per date. -/
def eraseNotes (r : DailySummaryRow) : DailySummaryRow :=
  { r with user_notes := none }

theorem updateFirst_map_eq {α β : Type} (p : α → Bool) (f : α → α) (g : α → β)
    (hg : ∀ a, g (f a) = g a) : ∀ l : List α, (updateFirst p f l).map g = l.map g := by
  intro l
  induction l with
  | nil => rfl
  | cons x xs ih =>
    rw [updateFirst]
    by_cases hx : p x
    · simp [hx, hg]
    · simp [hx, ih]

/-- C8: when a `DailySummary` row already exists for the date and
regeneration is not forced, `generate_summary` leaves `ai_summary` and all
stored statistics fields of every row unchanged — the table is unchanged
except possibly in the `user_notes` column — no new row is created, and the
table is completely unchanged when no (non-empty) user notes are given. -/
theorem c8_existing_summary_frame (aiText : String)
    (rows : List DailySummaryRow) (acts : List TimelineActivityRow)
    (day : Int) (un : Option String)
    (hex : ∃ r ∈ rows, r.date = day) :
    ((generate_summary aiText rows acts day un false).1.map eraseNotes =
      rows.map eraseNotes) ∧
    (generate_summary aiText rows acts day un false).1.length = rows.length ∧
    (pyTruthy un = false →
      (generate_summary aiText rows acts day un false).1 = rows) := by
  have hfind : (rows.find? (fun r => r.date = day)).isSome := by
    rw [List.find?_isSome]
    rcases hex with ⟨r, hr, hd⟩
    exact ⟨r, hr, by simp [hd]⟩
  rcases hsome : rows.find? (fun r => r.date = day) with _ | ex
  · rw [hsome] at hfind
    simp at hfind
  · have hbranch : generate_summary aiText rows acts day un false =
        (if pyTruthy un then
          (updateFirst (fun r => r.date = day)
            (fun r => { r with user_notes := un }) rows,
           some { ex with user_notes := un })
        else (rows, some ex)) := by
      rw [generate_summary]
      rw [hsome]
      simp
    by_cases hun : pyTruthy un
    · rw [hbranch, if_pos hun]
      refine ⟨?_, ?_, ?_⟩
      · exact updateFirst_map_eq (fun r => decide (r.date = day))
          (fun r => { r with user_notes := un }) eraseNotes (fun a => rfl) rows
      · have hlen := congrArg List.length
          (updateFirst_map_eq (fun r => r.date = day)
            (fun r => { r with user_notes := un }) eraseNotes
            (fun a => rfl) rows)
        simpa using hlen
      · intro hfalse
        rw [hun] at hfalse
        cases hfalse
    · rw [hbranch, if_neg hun]
      exact ⟨rfl, rfl, fun _ => rfl⟩

/-- Witness for C8: a one-row table for day 0, notes provided. -/
theorem c8_existing_summary_frame_witness :
    (∃ r ∈ ([⟨0, some "old summary", none, 10, 5, 2, some "工作"⟩] :
      List DailySummaryRow), r.date = 0) ∧
    (generate_summary "new" [⟨0, some "old summary", none, 10, 5, 2, some "工作"⟩]
      [] 0 (some "my notes") false).1.map eraseNotes =
      ([⟨0, some "old summary", none, 10, 5, 2, some "工作"⟩] :
        List DailySummaryRow).map eraseNotes :=
  ⟨⟨⟨0, some "old summary", none, 10, 5, 2, some "工作"⟩, by simp, rfl⟩,
   (c8_existing_summary_frame "new"
      [⟨0, some "old summary", none, 10, 5, 2, some "工作"⟩] [] 0
      (some "my notes")
      ⟨⟨0, some "old summary", none, 10, 5, 2, some "工作"⟩, by simp, rfl⟩).1⟩

/-- C9: a response element with no `start_minutes` key defaults its start
offset to 0 and one with no `end_minutes` key defaults its end offset to the
probed video duration in minutes (with 900 seconds substituted when probing
yielded no duration), so an element with no time fields at all still yields
an `ActivitySegment` spanning from the base time to base + duration instead
of being skipped. -/
theorem c9_missing_minutes_defaults (fields : List (String × Json))
    (probed : Option ℚ) (base : ℚ)
    (hstart : fields.lookup "start_minutes" = none)
    (hend : fields.lookup "end_minutes" = none)
    (hcat : fields.lookup "category" = none ∨
      ∃ s, fields.lookup "category" = some (Json.str s)) :
    ∃ seg, parseVideoElement (videoDurationSec probed) base (.obj fields) =
        some seg ∧
      seg.start_time = base ∧
      seg.end_time = base + videoDurationSec probed / 60 ∧
      (probed = none → videoDurationSec probed = 900) := by
  have h1 : pyGet fields "start_minutes" (.num 0) = .num 0 := by
    simp [pyGet, hstart]
  have h2 : pyGet fields "end_minutes" (.num (videoDurationSec probed / 60)) =
      .num (videoDurationSec probed / 60) := by
    simp [pyGet, hend]
  rcases hcat with hcat | ⟨s, hcat⟩
  · have h3 : pyGet fields "category" (.str "Other") = .str "Other" := by
      simp [pyGet, hcat]
    refine ⟨⟨base + 0, base + videoDurationSec probed / 60,
      pyGet fields "title" (.str "Untitled Activity"),
      pyGet fields "summary" (.str ""), parse_category "Other"⟩,
      ?_, by rw [add_zero], rfl, fun hp => by rw [hp]; rfl⟩
    simp [parseVideoElement, h1, h2, h3, pyFloat, pyAsString]
  · have h3 : pyGet fields "category" (.str "Other") = .str s := by
      simp [pyGet, hcat]
    refine ⟨⟨base + 0, base + videoDurationSec probed / 60,
      pyGet fields "title" (.str "Untitled Activity"),
      pyGet fields "summary" (.str ""), parse_category s⟩,
      ?_, by rw [add_zero], rfl, fun hp => by rw [hp]; rfl⟩
    simp [parseVideoElement, h1, h2, h3, pyFloat, pyAsString]

/-- Witness for C9: the empty JSON object with no probed duration. -/
theorem c9_missing_minutes_defaults_witness :
    (([] : List (String × Json)).lookup "start_minutes" = none) ∧
    (([] : List (String × Json)).lookup "end_minutes" = none) ∧
    ∃ seg, parseVideoElement (videoDurationSec none) 0 (.obj []) = some seg ∧
      seg.start_time = 0 ∧
      seg.end_time = 0 + videoDurationSec none / 60 ∧
      ((none : Option ℚ) = none → videoDurationSec none = 900) :=
  ⟨rfl, rfl, c9_missing_minutes_defaults [] none 0 rfl rfl (Or.inl rfl)⟩

/-- C1 (code bug): `AnalysisManager._merge_batch` names the merged batch
file `batch_YYYYMMDD_HHMMSS.mp4` from the window start, and that embedded
timestamp is itself `strptime`-parseable — yet `_parse_video_response` only
attempts filename recovery when the stem contains `"chunk_"`, so for every
scheduler invocation on a merged batch file the base timestamp silently
falls back to `datetime.now()` instead of the window start, while a
`chunk_`-named file does recover its embedded timestamp. -/
theorem c1_batch_base_falls_back_to_now :
    mergeBatchStem ⟨2024, 1, 1, 12, 0, 0⟩ = "batch_20240101_120000" ∧
    parseTimestamp "20240101_120000".data = some ⟨2024, 1, 1, 12, 0, 0⟩ ∧
    (∀ (dtVal : DateTime6 → ℚ) (now : ℚ),
      baseTimeOf dtVal now (mergeBatchStem ⟨2024, 1, 1, 12, 0, 0⟩).data = now) ∧
    (∀ (dtVal : DateTime6 → ℚ) (now : ℚ),
      baseTimeOf dtVal now "chunk_20240101_120000".data =
        dtVal ⟨2024, 1, 1, 12, 0, 0⟩) := by
  refine ⟨by decide, by decide, ?_, ?_⟩
  · intro dtVal now
    have hb : parseBaseTime (mergeBatchStem ⟨2024, 1, 1, 12, 0, 0⟩).data =
        none := by decide
    rw [baseTimeOf, hb]
  · intro dtVal now
    have hb : parseBaseTime "chunk_20240101_120000".data =
        some ⟨2024, 1, 1, 12, 0, 0⟩ := by decide
    rw [baseTimeOf, hb]

theorem findIdx_append_first (c : Char) (pre t : List Char) (h : c ∉ pre) :
    findIdx c (pre ++ c :: t) = some pre.length := by
  induction pre with
  | nil => simp [findIdx]
  | cons x xs ih =>
    rw [List.cons_append, findIdx]
    have hx : ¬ x = c := fun he => h (he ▸ List.mem_cons_self x xs)
    rw [if_neg hx, ih (fun hm => h (List.mem_cons_of_mem _ hm))]
    rfl

theorem findIdx_eq_none (c : Char) (l : List Char) (h : c ∉ l) :
    findIdx c l = none := by
  induction l with
  | nil => rfl
  | cons x xs ih =>
    rw [findIdx]
    have hx : ¬ x = c := fun he => h (he ▸ List.mem_cons_self x xs)
    rw [if_neg hx, ih (fun hm => h (List.mem_cons_of_mem _ hm))]
    rfl

/-- The first-`[`/last-`]` slice recovers a bracketed payload wrapped in
bracket-free prose unchanged. -/
theorem extract_recovers (pre t post : List Char)
    (hpre : '[' ∉ pre) (hpost : ']' ∉ post) :
    extractJsonSubstr (pre ++ ('[' :: t ++ [']']) ++ post) =
      some ('[' :: t ++ [']']) := by
  have hfind : findIdx '[' (pre ++ ('[' :: t ++ [']']) ++ post) =
      some pre.length := by
    have hh := findIdx_append_first '[' pre ((t ++ [']']) ++ post) hpre
    simpa [List.append_assoc] using hh
  have hrev : (pre ++ ('[' :: t ++ [']']) ++ post).reverse =
      post.reverse ++ ']' :: (t.reverse ++ '[' :: pre.reverse) := by
    simp
  have hfindr : findIdx ']' (pre ++ ('[' :: t ++ [']']) ++ post).reverse =
      some post.length := by
    rw [hrev]
    have hnp : ']' ∉ post.reverse := by simpa using hpost
    have hh := findIdx_append_first ']' post.reverse
      (t.reverse ++ '[' :: pre.reverse) hnp
    simpa using hh
  have hrfind : rfindIdx ']' (pre ++ ('[' :: t ++ [']']) ++ post) =
      some (pre.length + t.length + 1) := by
    rw [rfindIdx, hfindr, Option.map_some']
    congr 1
    simp only [List.length_append, List.length_cons, List.length_nil]
    omega
  simp only [extractJsonSubstr, hfind, hrfind]
  congr 1
  have hdrop : (pre ++ ('[' :: t ++ [']']) ++ post).drop pre.length =
      ('[' :: t ++ [']']) ++ post := by
    rw [List.append_assoc, List.drop_left]
  rw [hdrop]
  have hlen : pre.length + t.length + 1 + 1 - pre.length =
      ('[' :: t ++ [']']).length := by
    simp only [List.length_cons, List.length_append, List.length_nil]
    omega
  rw [hlen, List.take_left]

/-- C2: extraction-response parsing slices exactly the substring from the
first `[` to the last `]` (recovering a payload wrapped in bracket-free
prose unchanged); when either delimiter is missing, or the JSON decode of
the slice fails, the result is the empty list; and on a decoded array the
result is exactly the element-wise tolerant parse — each malformed element
is skipped on its own while every well-formed element still contributes its
`ActivitySegment`, so one malformed element never discards the rest. -/
theorem c2_response_parsing :
    (∀ pre t post : List Char, '[' ∉ pre → ']' ∉ post →
      extractJsonSubstr (pre ++ ('[' :: t ++ [']']) ++ post) =
        some ('[' :: t ++ [']'])) ∧
    (∀ (jsonParse : List Char → Option (List Json)) (probed : Option ℚ)
        (now : ℚ) (dtVal : DateTime6 → ℚ) (stem text : List Char),
      ('[' ∉ text ∨ ']' ∉ text) →
      parse_video_response jsonParse probed now dtVal stem text = []) ∧
    (∀ (jsonParse : List Char → Option (List Json)) (probed : Option ℚ)
        (now : ℚ) (dtVal : DateTime6 → ℚ) (stem text js : List Char),
      extractJsonSubstr text = some js → jsonParse js = none →
      parse_video_response jsonParse probed now dtVal stem text = []) ∧
    (∀ (jsonParse : List Char → Option (List Json)) (probed : Option ℚ)
        (now : ℚ) (dtVal : DateTime6 → ℚ) (stem text js : List Char)
        (elems : List Json),
      extractJsonSubstr text = some js → jsonParse js = some elems →
      parse_video_response jsonParse probed now dtVal stem text =
        elems.filterMap (parseVideoElement (videoDurationSec probed)
          (baseTimeOf dtVal now stem)) ∧
      ∀ e ∈ elems, ∀ seg,
        parseVideoElement (videoDurationSec probed)
          (baseTimeOf dtVal now stem) e = some seg →
        seg ∈ parse_video_response jsonParse probed now dtVal stem text) := by
  refine ⟨extract_recovers, ?_, ?_, ?_⟩
  · intro jsonParse probed now dtVal stem text hmiss
    have hnone : extractJsonSubstr text = none := by
      rw [extractJsonSubstr]
      rcases hmiss with hmiss | hmiss
      · rw [findIdx_eq_none '[' text hmiss]
      · rw [rfindIdx, findIdx_eq_none ']' text.reverse (by simpa using hmiss),
          Option.map_none']
        cases findIdx '[' text <;> rfl
    simp [parse_video_response, hnone]
  · intro jsonParse probed now dtVal stem text js hjs hparse
    simp [parse_video_response, hjs, hparse]
  · intro jsonParse probed now dtVal stem text js elems hjs hparse
    have hres : parse_video_response jsonParse probed now dtVal stem text =
        elems.filterMap (parseVideoElement (videoDurationSec probed)
          (baseTimeOf dtVal now stem)) := by
      simp [parse_video_response, hjs, hparse]
    refine ⟨hres, ?_⟩
    intro e he seg hseg
    rw [hres]
    exact List.mem_filterMap.mpr ⟨e, he, hseg⟩

/-- Witness for C2: prose-wrapped array text, plus a decoded array holding
one malformed element (`null`) among two valid ones, of which exactly the
two valid ones survive. -/
theorem c2_response_parsing_witness :
    ('[' ∉ "here: ".data) ∧ (']' ∉ " done".data) ∧
    extractJsonSubstr ("here: ".data ++ ('[' :: "1".data ++ [']']) ++
      " done".data) = some ('[' :: "1".data ++ [']']) ∧
    ('[' ∉ "no brackets".data ∨ ']' ∉ "no brackets".data) ∧
    parse_video_response (fun _ => some [Json.obj [], Json.null, Json.obj []])
      none 0 (fun _ => 0) "x".data "no brackets".data = [] ∧
    (parse_video_response (fun _ => some [Json.obj [], Json.null, Json.obj []])
      none 0 (fun _ => 0) "x".data "a[b]c".data).length = 2 := by
  have h1 := c2_response_parsing.1 "here: ".data "1".data " done".data
    (by decide) (by decide)
  have h2 := c2_response_parsing.2.1
    (fun _ => some [Json.obj [], Json.null, Json.obj []])
    none 0 (fun _ => 0) "x".data "no brackets".data (Or.inl (by decide))
  have h3 := (c2_response_parsing.2.2.2
    (fun _ => some [Json.obj [], Json.null, Json.obj []])
    none 0 (fun _ => 0) "x".data "a[b]c".data ('[' :: "b".data ++ [']'])
    [Json.obj [], Json.null, Json.obj []] (by decide) rfl).1
  refine ⟨by decide, by decide, h1, Or.inl (by decide), h2, ?_⟩
  rw [h3]
  rfl

/-- Field bookkeeping of one recording-loop iteration: a paused iteration
captures nothing and only advances the clock by its one-second sleep, an
unpaused one captures a frame exactly when the grab succeeds and advances
the clock by the frame interval. -/
theorem recStep_fields (cd fi : Nat) (paused cap : Bool) (s : RecState) :
    (recStep cd fi paused cap s).totalFrames =
      s.totalFrames + (if !paused && cap then 1 else 0) ∧
    (recStep cd fi paused cap s).pausedTime =
      s.pausedTime + (if paused then 1 else 0) ∧
    (recStep cd fi paused cap s).time =
      s.time + (if paused then 1 else fi) := by
  cases paused with
  | true => simp [recStep]
  | false =>
    cases cap with
    | false => simp [recStep]
    | true =>
      by_cases hd : cd ≤ s.time - s.chunkStart <;>
        simp [recStep, hd]

/-- Counting invariant of the recording loop run: captured frames, paused
seconds and elapsed wall-clock time as functions of the pause/capture
schedule. -/
theorem recRun_counts (cd fi : Nat) (p cap : Nat → Bool) :
    ∀ (n i0 : Nat) (s : RecState),
      (recRun cd fi p cap i0 n s).totalFrames =
        s.totalFrames +
          ((List.range' i0 n).filter (fun i => !p i && cap i)).length ∧
      (recRun cd fi p cap i0 n s).pausedTime =
        s.pausedTime + ((List.range' i0 n).filter (fun i => p i)).length ∧
      (recRun cd fi p cap i0 n s).time =
        s.time + ((List.range' i0 n).filter (fun i => p i)).length +
          fi * ((List.range' i0 n).filter (fun i => !p i)).length := by
  intro n
  induction n with
  | zero =>
    intro i0 s
    simp [recRun, List.range']
  | succ n ih =>
    intro i0 s
    rw [show recRun cd fi p cap i0 (n + 1) s =
      recRun cd fi p cap (i0 + 1) n (recStep cd fi (p i0) (cap i0) s) from rfl]
    obtain ⟨hf, hpz, ht⟩ := ih (i0 + 1) (recStep cd fi (p i0) (cap i0) s)
    obtain ⟨sf, sp, st⟩ := recStep_fields cd fi (p i0) (cap i0) s
    refine ⟨?_, ?_, ?_⟩
    · rw [hf, sf, List.range'_succ, List.filter_cons]
      by_cases hcase : (!p i0 && cap i0) = true <;> simp [hcase] <;> ring
    · rw [hpz, sp, List.range'_succ, List.filter_cons]
      by_cases hpp : p i0 <;> simp [hpp] <;> ring
    · rw [ht, st, List.range'_succ, List.filter_cons, List.filter_cons]
      by_cases hpp : p i0 <;> simp [hpp, Nat.mul_succ] <;> ring

/-- C5 (amended): while paused the capture loop captures no frames — over
any run the number of captured frames is exactly the number of unpaused
iterations with a successful grab — but the chunk timer is wall-clock based
and is not suspended: every paused iteration still advances the loop's
clock by its one-second sleep, so elapsed time during a pause keeps counting
toward the duration of the running chunk. -/
theorem c5_amended_pause_semantics (cd fi : Nat) (p cap : Nat → Bool)
    (n : Nat) :
    (recording_loop cd fi p cap n).totalFrames =
      ((List.range n).filter (fun i => !p i && cap i)).length ∧
    (recording_loop cd fi p cap n).pausedTime =
      ((List.range n).filter (fun i => p i)).length ∧
    (recording_loop cd fi p cap n).time =
      ((List.range n).filter (fun i => p i)).length +
        fi * ((List.range n).filter (fun i => !p i)).length := by
  obtain ⟨hf, hpz, ht⟩ := recRun_counts cd fi p cap n 0 recInit
  have hfields :
      (recording_loop cd fi p cap n).totalFrames =
        (recRun cd fi p cap 0 n recInit).totalFrames ∧
      (recording_loop cd fi p cap n).pausedTime =
        (recRun cd fi p cap 0 n recInit).pausedTime ∧
      (recording_loop cd fi p cap n).time =
        (recRun cd fi p cap 0 n recInit).time := by
    simp only [recording_loop]
    by_cases hb : (recRun cd fi p cap 0 n recInit).buffer ≠ 0
    · simp [hb]
    · simp [hb]
  rw [List.range_eq_range']
  refine ⟨?_, ?_, ?_⟩
  · rw [hfields.1, hf]
    simp [recInit]
  · rw [hfields.2.1, hpz]
    simp [recInit]
  · rw [hfields.2.2, ht]
    simp [recInit]

/-- C5 (counterexample): chunk duration 15 s, frame interval 5 s; the loop
captures one frame at second 0, is then paused for 100 iterations (seconds
5–105), and resumes.  The first captured frame after resume completes the
chunk: the completed chunk spans `(0, 105)`, so its `end_time − start_time`
of 105 s contains the 100 s of paused wall-clock time — contradicting the
claim that the duration of a completed chunk never includes paused time. -/
theorem c5_counterexample_paused_time_counted :
    (recording_loop 15 5 (fun i => decide (1 ≤ i) && decide (i ≤ 100))
        (fun _ => true) 102).chunks = [(0, 105)] ∧
    (recording_loop 15 5 (fun i => decide (1 ≤ i) && decide (i ≤ 100))
        (fun _ => true) 102).pausedTime = 100 ∧
    15 < 105 - 0 := by
  refine ⟨by decide, by decide, by decide⟩

/-- C7 (amended): the chunk filename is derived deterministically from the
chunk start timestamp as `chunk_YYYYMMDD_HHMMSS.mp4`, but `_save_chunk`
performs no existence check: its outcome is independent of which files
already exist, and with a working writer and a non-empty buffer it reports a
completed save at the derived path even when that file already exists —
the existing file is silently overwritten rather than an error surfaced. -/
theorem c7_amended_silent_overwrite (ok : Bool) (fs1 fs2 : String → Bool)
    (frames : Nat) (t : DateTime6) :
    (save_chunk ok fs1 frames t).2 = (save_chunk ok fs2 frames t).2 ∧
    chunkFilename t = "chunk_" ++ formatTimestamp t ++ ".mp4" ∧
    (ok = true → frames ≠ 0 →
      (save_chunk ok fs1 frames t).2 = .saved (chunkFilename t)) := by
  refine ⟨?_, rfl, ?_⟩
  · by_cases hfr : frames = 0 <;> cases ok <;> simp [save_chunk, hfr]
  · intro hok hfr
    subst hok
    simp [save_chunk, hfr]

/-- Witness for the amended C7 at concrete inputs. -/
theorem c7_amended_silent_overwrite_witness :
    (save_chunk true (fun _ => true) 3 ⟨2024, 1, 1, 0, 0, 0⟩).2 =
      (save_chunk true (fun _ => false) 3 ⟨2024, 1, 1, 0, 0, 0⟩).2 ∧
    chunkFilename ⟨2024, 1, 1, 0, 0, 0⟩ =
      "chunk_" ++ formatTimestamp ⟨2024, 1, 1, 0, 0, 0⟩ ++ ".mp4" ∧
    (save_chunk true (fun _ => true) 3 ⟨2024, 1, 1, 0, 0, 0⟩).2 =
      .saved (chunkFilename ⟨2024, 1, 1, 0, 0, 0⟩) := by
  have h := c7_amended_silent_overwrite true (fun _ => true) (fun _ => false)
    3 ⟨2024, 1, 1, 0, 0, 0⟩
  exact ⟨h.1, h.2.1, h.2.2 rfl (by decide)⟩

/-- C7 (counterexample): a state in which the derived filename already
exists on disk, yet saving reports a completed save at that same path —
no error is surfaced, the file is overwritten. -/
theorem c7_counterexample_no_collision_error :
    (fun q => decide (q = chunkFilename ⟨2024, 1, 1, 12, 0, 0⟩))
      (chunkFilename ⟨2024, 1, 1, 12, 0, 0⟩) = true ∧
    (save_chunk true
      (fun q => decide (q = chunkFilename ⟨2024, 1, 1, 12, 0, 0⟩)) 5
      ⟨2024, 1, 1, 12, 0, 0⟩).2 =
      SaveResult.saved (chunkFilename ⟨2024, 1, 1, 12, 0, 0⟩) := by
  refine ⟨by decide, by decide⟩

/-- Window bounds invariant of the backfill loop: every merged batch
produced from window position `current` onward starts at or after
`current`, and holds exactly chunks whose `start_time` lies in its own
half-open `[window, window + interval)` range. -/
theorem analyzeDateLoop_bounds (interval : Int) (hI : 0 < interval)
    (chunks : List RecordingChunk) (mergeOk : Int → Bool)
    (extract : Int → List ActivitySegment) (endTime : Int) :
    ∀ (fuel : Nat) (current : Int), (endTime - current).toNat ≤ fuel →
      ∀ b ∈ (analyzeDateLoop interval hI chunks mergeOk extract
          current endTime).2,
        current ≤ b.1 ∧
        ∀ c ∈ b.2, b.1 ≤ c.start_time ∧ c.start_time < b.1 + interval := by
  intro fuel
  induction fuel with
  | zero =>
    intro current hle b hb
    rw [analyzeDateLoop] at hb
    have hnot : ¬ current < endTime := by omega
    simp only [hnot, dite_false] at hb
    simp at hb
  | succ fuel ih =>
    intro current hle b hb
    rw [analyzeDateLoop] at hb
    by_cases hlt : current < endTime
    · simp only [hlt, dite_true] at hb
      by_cases hcond : (chunks.filter (fun c =>
          decide (current ≤ c.start_time) &&
            decide (c.start_time < current + interval)) ≠ []) ∧
          mergeOk current
      · rw [if_pos hcond] at hb
        rcases List.mem_cons.mp hb with rfl | hb
        · refine ⟨le_refl _, ?_⟩
          intro c hc
          have hm := List.mem_filter.mp hc
          simp at hm
          exact ⟨hm.2.1, hm.2.2⟩
        · have hrest := ih (current + interval) (by omega) b hb
          exact ⟨by omega, hrest.2⟩
      · rw [if_neg hcond] at hb
        have hrest := ih (current + interval) (by omega) b hb
        exact ⟨by omega, hrest.2⟩
    · simp only [hlt, dite_false] at hb
      simp at hb

/-- Each chunk appears in at most one merged batch of the backfill loop. -/
theorem analyzeDateLoop_once (interval : Int) (hI : 0 < interval)
    (chunks : List RecordingChunk) (mergeOk : Int → Bool)
    (extract : Int → List ActivitySegment) (endTime : Int) :
    ∀ (fuel : Nat) (current : Int), (endTime - current).toNat ≤ fuel →
      ∀ c : RecordingChunk,
        ((analyzeDateLoop interval hI chunks mergeOk extract
            current endTime).2.countP (fun b => decide (c ∈ b.2))) ≤ 1 := by
  intro fuel
  induction fuel with
  | zero =>
    intro current hle c
    rw [analyzeDateLoop]
    have hnot : ¬ current < endTime := by omega
    simp [hnot]
  | succ fuel ih =>
    intro current hle c
    rw [analyzeDateLoop]
    by_cases hlt : current < endTime
    · simp only [hlt, dite_true]
      by_cases hcond : (chunks.filter (fun c =>
          decide (current ≤ c.start_time) &&
            decide (c.start_time < current + interval)) ≠ []) ∧
          mergeOk current
      · rw [if_pos hcond, List.countP_cons]
        by_cases hcm : c ∈ chunks.filter (fun c =>
            decide (current ≤ c.start_time) &&
              decide (c.start_time < current + interval))
        · have hcstart : c.start_time < current + interval := by
            have hm := List.mem_filter.mp hcm
            simp at hm
            omega
          have hzero : ((analyzeDateLoop interval hI chunks mergeOk extract
              (current + interval) endTime).2.countP
              (fun b => decide (c ∈ b.2))) = 0 := by
            rw [List.countP_eq_zero]
            intro b hb
            have hbd := analyzeDateLoop_bounds interval hI chunks mergeOk
              extract endTime fuel (current + interval) (by omega) b hb
            simp only [decide_eq_true_eq]
            intro hcb
            have hcb2 := hbd.2 c hcb
            omega
          rw [hzero]
          simp [hcm]
        · have hle1 := ih (current + interval) (by omega) c
          simp only [hcm, decide_eq_true_eq, if_neg]
          simpa using hle1
      · rw [if_neg hcond]
        exact ih (current + interval) (by omega) c
    · simp [hlt]

/-- The activity counter returned by the backfill loop is the total number
of extracted activities over its merged batches. -/
theorem analyzeDateLoop_count (interval : Int) (hI : 0 < interval)
    (chunks : List RecordingChunk) (mergeOk : Int → Bool)
    (extract : Int → List ActivitySegment) (endTime : Int) :
    ∀ (fuel : Nat) (current : Int), (endTime - current).toNat ≤ fuel →
      (analyzeDateLoop interval hI chunks mergeOk extract
          current endTime).1 =
        ((analyzeDateLoop interval hI chunks mergeOk extract
            current endTime).2.map (fun b => (extract b.1).length)).sum := by
  intro fuel
  induction fuel with
  | zero =>
    intro current hle
    rw [analyzeDateLoop]
    have hnot : ¬ current < endTime := by omega
    simp [hnot]
  | succ fuel ih =>
    intro current hle
    rw [analyzeDateLoop]
    by_cases hlt : current < endTime
    · simp only [hlt, dite_true]
      by_cases hcond : (chunks.filter (fun c =>
          decide (current ≤ c.start_time) &&
            decide (c.start_time < current + interval)) ≠ []) ∧
          mergeOk current
      · rw [if_pos hcond]
        simp only [List.map_cons, List.sum_cons]
        rw [ih (current + interval) (by omega)]
      · rw [if_neg hcond]
        exact ih (current + interval) (by omega)
    · simp [hlt]

/-- C10: the manual backfill partitions the day into consecutive half-open
`[t, t + interval)` windows over chunk `start_time`, so within one run every
chunk of the date belongs to at most one merged batch (it is never merged or
analyzed twice), and the returned value counts the activities processed
across all windows. -/
theorem c10_analyze_date_partition (interval : Int) (hI : 0 < interval)
    (db : List RecordingChunk) (mergeOk : Int → Bool)
    (extract : Int → List ActivitySegment) (dayStart : Int) :
    (∀ c : RecordingChunk,
      ((analyzeDateBatches interval hI db mergeOk extract dayStart).countP
        (fun b => decide (c ∈ b.2))) ≤ 1) ∧
    analyze_date interval hI db mergeOk extract dayStart =
      ((analyzeDateBatches interval hI db mergeOk extract dayStart).map
        (fun b => (extract b.1).length)).sum := by
  by_cases hc : get_chunks_in_range db dayStart (dayStart + minutesPerDay)
      none = []
  · constructor
    · intro c
      simp [analyzeDateBatches, hc]
    · simp [analyze_date, analyzeDateBatches, hc]
  · constructor
    · intro c
      rw [show analyzeDateBatches interval hI db mergeOk extract dayStart =
        (analyzeDateLoop interval hI
          (get_chunks_in_range db dayStart (dayStart + minutesPerDay) none)
          mergeOk extract dayStart (dayStart + minutesPerDay)).2 from by
          simp [analyzeDateBatches, hc]]
      exact analyzeDateLoop_once interval hI _ mergeOk extract _
        (dayStart + minutesPerDay - dayStart).toNat dayStart (by omega) c
    · rw [show analyzeDateBatches interval hI db mergeOk extract dayStart =
        (analyzeDateLoop interval hI
          (get_chunks_in_range db dayStart (dayStart + minutesPerDay) none)
          mergeOk extract dayStart (dayStart + minutesPerDay)).2 from by
          simp [analyzeDateBatches, hc],
        show analyze_date interval hI db mergeOk extract dayStart =
        (analyzeDateLoop interval hI
          (get_chunks_in_range db dayStart (dayStart + minutesPerDay) none)
          mergeOk extract dayStart (dayStart + minutesPerDay)).1 from by
          simp [analyze_date, hc]]
      exact analyzeDateLoop_count interval hI _ mergeOk extract _
        (dayStart + minutesPerDay - dayStart).toNat dayStart (by omega)

/-- Witness for C10: a two-chunk day with 720-minute windows. -/
theorem c10_analyze_date_partition_witness :
    (0 : Int) < 720 ∧
    (∀ c : RecordingChunk,
      ((analyzeDateBatches 720 (by decide)
          [⟨1, 10, 20, "a", 1, 5⟩, ⟨2, 800, 815, "b", 1, 5⟩]
          (fun _ => true) (fun _ => []) 0).countP
        (fun b => decide (c ∈ b.2))) ≤ 1) ∧
    analyze_date 720 (by decide)
        [⟨1, 10, 20, "a", 1, 5⟩, ⟨2, 800, 815, "b", 1, 5⟩]
        (fun _ => true) (fun _ => []) 0 =
      ((analyzeDateBatches 720 (by decide)
          [⟨1, 10, 20, "a", 1, 5⟩, ⟨2, 800, 815, "b", 1, 5⟩]
          (fun _ => true) (fun _ => []) 0).map
        (fun b => ((fun _ : Int => ([] : List ActivitySegment)) b.1).length)).sum :=
  ⟨by decide,
   (c10_analyze_date_partition 720 (by decide)
      [⟨1, 10, 20, "a", 1, 5⟩, ⟨2, 800, 815, "b", 1, 5⟩]
      (fun _ => true) (fun _ => []) 0).1,
   (c10_analyze_date_partition 720 (by decide)
      [⟨1, 10, 20, "a", 1, 5⟩, ⟨2, 800, 815, "b", 1, 5⟩]
      (fun _ => true) (fun _ => []) 0).2⟩

end Dayflow
